import Mathlib

/-!
Verification of the delimited-file report scripts (reservation listing and
hourly energy-meter aggregation).  The Python sources are shallowly embedded:
Python strings become `List Char`, Python floats become `ℚ` (exact decimal
arithmetic), Python dicts become insertion-ordered association lists, and
fallible operations (indexing, `float`, `int`, `datetime` parsing, opening a
missing file) return `Option` or `Except PyError`.
-/

/-- Errors a run can abort with, mirroring the Python exception kinds that
matter to the scripts. -/
inductive PyError where
  | fileNotFound
  | valueError
  | indexError
deriving DecidableEq, Repr

/-- Character list of a string literal; Python strings are embedded as
`List Char`. -/
def chars (s : String) : List Char := s.data

/-- Model of Python `str.split(sep)` for a one-character separator: splitting
never returns an empty list, and the empty string splits into `[[]]`. -/
def pySplit (sep : Char) : List Char → List (List Char)
  | [] => [[]]
  | c :: rest =>
    match pySplit sep rest with
    | [] => [[]]
    | g :: gs => if c = sep then [] :: g :: gs else (c :: g) :: gs

/-- Model of Python `str.strip()`: drop whitespace from both ends. -/
def pyStrip (cs : List Char) : List Char :=
  ((cs.dropWhile Char.isWhitespace).reverse.dropWhile Char.isWhitespace).reverse

/-- Model of Python `str.lower()`. -/
def pyLower (cs : List Char) : List Char := cs.map Char.toLower

/-- Model of Python `str.capitalize()`: first character upper-cased, the rest
lower-cased. -/
def pyCapitalize : List Char → List Char
  | [] => []
  | c :: rest => c.toUpper :: rest.map Char.toLower

/-- Model of Python `str.replace(a, b)` for one-character patterns. -/
def pyReplaceChar (a b : Char) (cs : List Char) : List Char :=
  cs.map fun c => if c = a then b else c

/-- Numeric value of a decimal digit character. -/
def digToNat (c : Char) : Nat := c.toNat - 48

/-- Value of a big-endian list of decimal digit characters, read left to
right as Python number parsing does. -/
def digitsVal (cs : List Char) : Nat := cs.foldl (fun a c => a * 10 + digToNat c) 0

/-- Whether every character of the list is a decimal digit. -/
def allDigits (cs : List Char) : Bool := cs.all Char.isDigit

/-- The character for a decimal digit. -/
def digitChar (d : Nat) : Char := Char.ofNat (48 + d)

/-- Little-endian decimal digit characters of `n`, with explicit fuel so that
the definition is structurally recursive. -/
def natDigitsRev : Nat → Nat → List Char
  | _, 0 => []
  | 0, _ + 1 => []
  | fuel + 1, n + 1 => digitChar ((n + 1) % 10) :: natDigitsRev fuel ((n + 1) / 10)

/-- Big-endian decimal rendering of a natural number, as Python prints
integers. -/
def natToDecChars (n : Nat) : List Char :=
  if n = 0 then chars "0" else (natDigitsRev n n).reverse

/-- Exactly two decimal digit characters, used for the fractional part of
`"%.2f"` formatting and for zero-padded day and month fields. -/
def twoDigitChars (n : Nat) : List Char := [digitChar (n / 10), digitChar (n % 10)]

/-- Round to the nearest integer, ties to even: the rounding that the
`"{:.2f}"` format specifier applies to the scaled value. -/
def rhe (x : ℚ) : ℤ :=
  let f := ⌊x⌋
  let r := x - f
  if r < 1 / 2 then f
  else if 1 / 2 < r then f + 1
  else if f % 2 = 0 then f else f + 1

/-- Model of Python `f"{v:.2f}"` over exact rationals: round `100 * v` to the
nearest integer (ties to even) and print sign, integer part, a period, and a
two-digit fractional part. -/
def formatTwoDecChars (v : ℚ) : List Char :=
  let n := rhe (100 * v)
  let a := n.natAbs
  (if v < 0 then chars "-" else []) ++ natToDecChars (a / 100) ++ chars "." ++ twoDigitChars (a % 100)

/-- Unsigned part of Python `float(str)` on a plain decimal literal: digits
with an optional single period. -/
def parseUnsignedFloat (cs : List Char) : Option ℚ :=
  let ip := cs.takeWhile (· ≠ '.')
  match cs.dropWhile (· ≠ '.') with
  | [] => if allDigits ip ∧ ip ≠ [] then some (digitsVal ip : ℚ) else none
  | _ :: fp =>
    if allDigits ip ∧ allDigits fp ∧ (ip ≠ [] ∨ fp ≠ []) then
      some ((digitsVal ip : ℚ) + (digitsVal fp : ℚ) / 10 ^ fp.length)
    else none

/-- Model of Python `float(str)` restricted to plain decimal literals:
surrounding whitespace and an optional sign, then digits with an optional
period.  Exponent and special forms never occur in these data files. -/
def parsePyFloat (cs : List Char) : Option ℚ :=
  let s := pyStrip cs
  if s.headD ' ' = '-' then (parseUnsignedFloat s.tail).map (fun q => -q)
  else if s.headD ' ' = '+' then parseUnsignedFloat s.tail
  else parseUnsignedFloat s

/-- Model of Python `int(str)`: surrounding whitespace, an optional sign, and
decimal digits. -/
def pyParseInt (cs : List Char) : Option ℤ :=
  let s := pyStrip cs
  if s.headD ' ' = '-' then
    if allDigits s.tail ∧ s.tail ≠ [] then some (-(digitsVal s.tail : ℤ)) else none
  else if s.headD ' ' = '+' then
    if allDigits s.tail ∧ s.tail ≠ [] then some (digitsVal s.tail : ℤ) else none
  else if allDigits s ∧ s ≠ [] then some (digitsVal s : ℤ) else none

/-- Lookup in an insertion-ordered association list, the embedding of a
Python dict read `d.get(k)` / `k in d`. -/
def alGet {K V : Type} [DecidableEq K] : List (K × V) → K → Option V
  | [], _ => none
  | (k', v) :: t, k => if k = k' then some v else alGet t k

/-- Write `d[k] = v` on an insertion-ordered association list: replace in
place when the key is present, append otherwise (Python dict semantics). -/
def alSet {K V : Type} [DecidableEq K] : List (K × V) → K → V → List (K × V)
  | [], k, v => [(k, v)]
  | (k', v') :: t, k, v => if k = k' then (k', v) :: t else (k', v') :: alSet t k v

/-- Update the value at a present key in place: the embedding of
`d[k] = f(d[k])` at call sites where the key is known to be present (a
`KeyError` is unreachable there, so an absent key is left untouched). -/
def alModify {K V : Type} [DecidableEq K] : List (K × V) → K → (V → V) → List (K × V)
  | [], _, _ => []
  | (k', v') :: t, k, f => if k = k' then (k', f v') :: t else (k', v') :: alModify t k f

/-- Keys of a dict in insertion order, the embedding of `d.keys()`. -/
def alKeys {K V : Type} (m : List (K × V)) : List K := m.map Prod.fst

/-- Values of a dict in insertion order, the embedding of `d.values()`. -/
def alValues {K V : Type} (m : List (K × V)) : List V := m.map Prod.snd

/-- Membership test, the embedding of `k in d`. -/
def alContains {K V : Type} [DecidableEq K] (m : List (K × V)) (k : K) : Bool :=
  (alGet m k).isSome

/-- Update a list element in place, the embedding of `l[i] = f(l[i])` at call
sites where `i` is in range. -/
def listModify {α : Type} : List α → Nat → (α → α) → List α
  | [], _, _ => []
  | a :: t, 0, f => f a :: t
  | a :: t, n + 1, f => a :: listModify t n f

/-- A Python `datetime.date`. -/
structure PyDate where
  year : Nat
  month : Nat
  day : Nat
deriving DecidableEq, Repr

/-- A Python `datetime.datetime`. -/
structure PyDateTime where
  date : PyDate
  hour : Nat
  minute : Nat
  second : Nat
deriving DecidableEq, Repr

/-- Embedding of `datetime.date.weekday()`: 0 for Monday through 6 for
Sunday, computed with the Zeller congruence over the proleptic Gregorian
calendar. -/
def pyWeekday (d : PyDate) : Nat :=
  let y := if d.month < 3 then d.year - 1 else d.year
  let m := if d.month < 3 then d.month + 12 else d.month
  (d.day + 13 * (m + 1) / 5 + y + y / 4 - y / 100 + y / 400 + 5) % 7

/-- Python date comparison `a <= b` (lexicographic on year, month, day). -/
def dateLe (a b : PyDate) : Bool :=
  if a.year ≠ b.year then a.year ≤ b.year
  else if a.month ≠ b.month then a.month ≤ b.month
  else a.day ≤ b.day

/-- Insert into a list sorted by `le`. -/
def insertByLe {α : Type} (le : α → α → Bool) (x : α) : List α → List α
  | [] => [x]
  | y :: t => if le x y then x :: y :: t else y :: insertByLe le x t

/-- Embedding of Python `sorted`, as an insertion sort (the inputs it is
applied to have pairwise distinct elements, so any correct sort agrees). -/
def sortByLe {α : Type} (le : α → α → Bool) (l : List α) : List α :=
  l.foldr (insertByLe le) []

/-- Parse decimal digits to a natural number, failing on anything else. -/
def parseDigitsNat (cs : List Char) : Option Nat :=
  if allDigits cs ∧ cs ≠ [] then some (digitsVal cs) else none

/-- Parse a `YYYY-MM-DD` calendar date.  Month and day ranges are checked;
the per-month day count is not modelled, which no input of interest
exercises. -/
def parseIsoDate (cs : List Char) : Option PyDate :=
  match pySplit '-' cs with
  | [ys, ms, ds] => do
    let y ← parseDigitsNat ys
    let m ← parseDigitsNat ms
    let d ← parseDigitsNat ds
    if 1 ≤ m ∧ m ≤ 12 ∧ 1 ≤ d ∧ d ≤ 31 then some ⟨y, m, d⟩ else none
  | _ => none

/-- Embedding of `datetime.fromisoformat` on the forms these files use:
a date, optionally followed by `T` and a `HH:MM[:SS]` clock time. -/
def pyFromIsoformat (cs : List Char) : Option PyDateTime :=
  match pySplit 'T' cs with
  | [ds] => (parseIsoDate ds).map fun d => ⟨d, 0, 0, 0⟩
  | [ds, ts] => do
    let d ← parseIsoDate ds
    match pySplit ':' ts with
    | [hs, ms] => do
      let h ← parseDigitsNat hs
      let mi ← parseDigitsNat ms
      if h < 24 ∧ mi < 60 then some ⟨d, h, mi, 0⟩ else none
    | [hs, ms, ss] => do
      let h ← parseDigitsNat hs
      let mi ← parseDigitsNat ms
      let s ← parseDigitsNat ss
      if h < 24 ∧ mi < 60 ∧ s < 60 then some ⟨d, h, mi, s⟩ else none
    | _ => none
  | _ => none

/-- Embedding of `datetime.strptime(s, "%Y-%m-%d %H:%M")` as the reservation
reader calls it. -/
def pyStrptimeYmdHM (cs : List Char) : Option PyDateTime :=
  match pySplit ' ' cs with
  | [ds, ts] => do
    let d ← parseIsoDate ds
    match pySplit ':' ts with
    | [hs, ms] => do
      let h ← parseDigitsNat hs
      let mi ← parseDigitsNat ms
      if h < 24 ∧ mi < 60 then some ⟨d, h, mi, 0⟩ else none
    | _ => none
  | _ => none

/- Task D (`task_d.py`): rows as lists of strings, daily totals as a dict
from date to an inner dict mapping "cons" and "prod" to three-element
lists. -/

/-- Loop body of Task D `read_data` over the stripped data lines: empty lines
and lines splitting into fewer than seven semicolon-separated fields are
skipped, all other lines contribute their field list. -/
def dataRowsD : List (List Char) → List (List (List Char))
  | [] => []
  | line :: rest =>
    if line = [] then dataRowsD rest
    else
      let parts := pySplit ';' line
      if parts.length < 7 then dataRowsD rest
      else parts :: dataRowsD rest

/-- Task D `read_data` on the lines of an existing file: strip every line,
skip the header line at index 0, and collect the field lists of the
well-formed data lines. -/
def read_data_rows (lines : List (List Char)) : List (List (List Char)) :=
  dataRowsD ((lines.map pyStrip).drop 1)

/-- Task D `read_data` including the `open` call: a missing file is an
unhandled `FileNotFoundError`. -/
def read_data_D (file : Option (List (List Char))) :
    Except PyError (List (List (List Char))) :=
  match file with
  | none => .error .fileNotFound
  | some lines => .ok (read_data_rows lines)

/-- The daily-totals mapping of Task D: date to `"cons"`/`"prod"` to a
three-element list of per-phase totals in Wh. -/
abbrev DailyD : Type := List (PyDate × List (List Char × List ℚ))

/-- Fresh inner dict for a newly encountered date in Task D. -/
def initDailyD : List (List Char × List ℚ) :=
  [(chars "cons", [0, 0, 0]), (chars "prod", [0, 0, 0])]

/-- Embedding of `daily[d][cat][i] += x` in Task D. -/
def addAtD (daily : DailyD) (d : PyDate) (cat : List Char) (i : Nat) (x : ℚ) : DailyD :=
  alModify daily d fun inner => alModify inner cat fun l => listModify l i (· + x)

/-- One iteration of the Task D `calculate_daily_totals` loop: parse the
timestamp and the six numeric fields (a conversion failure aborts the whole
run), create the zero-initialized entry for a new date, then add the six
values in place. -/
def calcStepD (daily : DailyD) (parts : List (List Char)) : Option DailyD := do
  let dt ← pyFromIsoformat (parts.getD 0 [])
  let d := dt.date
  let cons_v1 ← parsePyFloat (parts.getD 1 [])
  let cons_v2 ← parsePyFloat (parts.getD 2 [])
  let cons_v3 ← parsePyFloat (parts.getD 3 [])
  let prod_v1 ← parsePyFloat (parts.getD 4 [])
  let prod_v2 ← parsePyFloat (parts.getD 5 [])
  let prod_v3 ← parsePyFloat (parts.getD 6 [])
  let daily := if alContains daily d then daily else alSet daily d initDailyD
  let daily := addAtD daily d (chars "cons") 0 cons_v1
  let daily := addAtD daily d (chars "cons") 1 cons_v2
  let daily := addAtD daily d (chars "cons") 2 cons_v3
  let daily := addAtD daily d (chars "prod") 0 prod_v1
  let daily := addAtD daily d (chars "prod") 1 prod_v2
  let daily := addAtD daily d (chars "prod") 2 prod_v3
  some daily

/-- The Task D aggregation loop over the rows. -/
def calcDGo : List (List (List Char)) → DailyD → Option DailyD
  | [], daily => some daily
  | parts :: rest, daily =>
    match calcStepD daily parts with
    | none => none
    | some daily' => calcDGo rest daily'

/-- Task D `calculate_daily_totals`. -/
def calculate_daily_totals (rows : List (List (List Char))) : Option DailyD :=
  calcDGo rows []

/-- Task D `format_kwh`: divide by 1000, format with two decimals, replace
the period by a comma. -/
def format_kwh (value_wh : ℚ) : List Char :=
  pyReplaceChar '.' ',' (formatTwoDecChars (value_wh / 1000))

/-- The lowercase English weekday names of Task D `weekday_name_finnish`. -/
def weekdayNamesLower : List (List Char) :=
  [chars "monday", chars "tuesday", chars "wednesday", chars "thursday",
   chars "friday", chars "saturday", chars "sunday"]

/-- Task D `weekday_name_finnish`. -/
def weekday_name_finnish (d : PyDate) : List Char :=
  weekdayNamesLower.getD (pyWeekday d) []

/-- Left-justify in a field of `n` characters, the embedding of
`f"{s:<n}"`. -/
def padRightChars (n : Nat) (s : List Char) : List Char :=
  s ++ List.replicate (n - s.length) ' '

/-- Right-justify in a field of `n` characters, the embedding of
`f"{s:>n}"`. -/
def padLeftChars (n : Nat) (s : List Char) : List Char :=
  List.replicate (n - s.length) ' ' ++ s

/-- Embedding of `date.strftime("%d.%m.%Y")` for four-digit years as Task D
prints them. -/
def strftimeDMY (d : PyDate) : List Char :=
  twoDigitChars d.day ++ chars "." ++ twoDigitChars d.month ++ chars "." ++ natToDecChars d.year

/-- One date row of the Task D report. -/
def reportRowD (daily : DailyD) (d : PyDate) : List Char :=
  let data := (alGet daily d).getD []
  let cons := (alGet data (chars "cons")).getD []
  let prod := (alGet data (chars "prod")).getD []
  let day_name := pyCapitalize (weekday_name_finnish d)
  let date_str := strftimeDMY d
  padRightChars 9 day_name ++ chars " " ++ padRightChars 11 date_str ++ chars " " ++
    padLeftChars 6 (format_kwh (cons.getD 0 0)) ++ chars "  " ++
    padLeftChars 6 (format_kwh (cons.getD 1 0)) ++ chars "  " ++
    padLeftChars 6 (format_kwh (cons.getD 2 0)) ++ chars "  " ++
    padLeftChars 6 (format_kwh (prod.getD 0 0)) ++ chars "  " ++
    padLeftChars 6 (format_kwh (prod.getD 1 0)) ++ chars "  " ++
    padLeftChars 6 (format_kwh (prod.getD 2 0))

/-- The lines printed by Task D `print_report`: four header lines, then one
row per date in ascending date order. -/
def print_report_lines (daily : DailyD) : List (List Char) :=
  chars "Week 42 electricity consumption and production (kWh, by phase)" ::
  chars "Day       Date         Consumption [kWh]           Production [kWh]" ::
  chars "          (dd.mm.yyyy)  v1      v2      v3      v1      v2      v3" ::
  List.replicate 75 '-' ::
  (sortByLe dateLe (alKeys daily)).map (reportRowD daily)

/- Task E (`task_e.py`): typed `Measurement` records, daily summaries as a
dict from date to a dict with the six field keys. -/

/-- One hourly measurement of consumption and production in Wh. -/
structure Measurement where
  timestamp : PyDateTime
  cons_v1 : ℚ
  cons_v2 : ℚ
  cons_v3 : ℚ
  prod_v1 : ℚ
  prod_v2 : ℚ
  prod_v3 : ℚ
deriving DecidableEq, Repr

/-- The per-day summary dict of Task E: one accumulated total per field
key. -/
abbrev SummaryE : Type := List (List Char × ℚ)

/-- The date-keyed mapping of Task E. -/
abbrev DailyE : Type := List (PyDate × SummaryE)

/-- The six field keys, in the insertion order the source uses. -/
def summaryKeys : List (List Char) :=
  [chars "cons_v1", chars "cons_v2", chars "cons_v3",
   chars "prod_v1", chars "prod_v2", chars "prod_v3"]

/-- Build a `Measurement` from one CSV row, the embedding of the constructor
call inside Task E `read_data`; any conversion failure aborts the read. -/
def rowToMeasurementE (row : List (List Char)) : Option Measurement := do
  let ts ← pyFromIsoformat (pyStrip (row.getD 0 []))
  let c1 ← parsePyFloat (row.getD 1 [])
  let c2 ← parsePyFloat (row.getD 2 [])
  let c3 ← parsePyFloat (row.getD 3 [])
  let p1 ← parsePyFloat (row.getD 4 [])
  let p2 ← parsePyFloat (row.getD 5 [])
  let p3 ← parsePyFloat (row.getD 6 [])
  some ⟨ts, c1, c2, c3, p1, p2, p3⟩

/-- Loop body of Task E `read_data` over the data rows: rows with fewer than
seven fields are skipped, the rest are converted to measurements. -/
def readRowsE : List (List (List Char)) → Option (List Measurement)
  | [] => some []
  | row :: rest =>
    if row.length < 7 then readRowsE rest
    else do
      let m ← rowToMeasurementE row
      let ms ← readRowsE rest
      some (m :: ms)

/-- Task E `read_data` including the `open` and the CSV row splitting: a
missing file is an unhandled `FileNotFoundError`, a conversion failure an
unhandled `ValueError`. -/
def read_data_E (file : Option (List (List Char))) : Except PyError (List Measurement) :=
  match file with
  | none => .error .fileNotFound
  | some lines =>
    match readRowsE ((lines.map (pySplit ';')).drop 1) with
    | some ms => .ok ms
    | none => .error .valueError

/-- Fresh zero-valued summary for a newly encountered date in Task E. -/
def initSummaryE : SummaryE :=
  [(chars "cons_v1", 0), (chars "cons_v2", 0), (chars "cons_v3", 0),
   (chars "prod_v1", 0), (chars "prod_v2", 0), (chars "prod_v3", 0)]

/-- Embedding of `daily[d][key] += x` in Task E. -/
def addFieldE (daily : DailyE) (d : PyDate) (k : List Char) (x : ℚ) : DailyE :=
  alModify daily d fun s => alModify s k (· + x)

/-- One iteration of the Task E `calculate_daily_summaries` loop. -/
def calcStepE (daily : DailyE) (m : Measurement) : DailyE :=
  let d := m.timestamp.date
  let daily := if alContains daily d then daily else alSet daily d initSummaryE
  let daily := addFieldE daily d (chars "cons_v1") m.cons_v1
  let daily := addFieldE daily d (chars "cons_v2") m.cons_v2
  let daily := addFieldE daily d (chars "cons_v3") m.cons_v3
  let daily := addFieldE daily d (chars "prod_v1") m.prod_v1
  let daily := addFieldE daily d (chars "prod_v2") m.prod_v2
  let daily := addFieldE daily d (chars "prod_v3") m.prod_v3
  daily

/-- Task E `calculate_daily_summaries`. -/
def calculate_daily_summaries (ms : List Measurement) : DailyE :=
  ms.foldl calcStepE []

/-- Task E `wh_to_kwh`. -/
def wh_to_kwh (value_wh : ℚ) : ℚ := value_wh / 1000

/-- Task E `format_kwh_finnish`: two decimals, period replaced by a comma. -/
def format_kwh_finnish (value_kwh : ℚ) : List Char :=
  pyReplaceChar '.' ',' (formatTwoDecChars value_kwh)

/-- Task E `format_date_finnish`: `dd.mm.` with zero padding and the year
printed without padding. -/
def format_date_finnish (d : PyDate) : List Char :=
  twoDigitChars d.day ++ chars "." ++ twoDigitChars d.month ++ chars "." ++ natToDecChars d.year

/-- The capitalized English weekday names of Task E `weekday_name`. -/
def weekdayNamesE : List (List Char) :=
  [chars "Monday", chars "Tuesday", chars "Wednesday", chars "Thursday",
   chars "Friday", chars "Saturday", chars "Sunday"]

/-- Task E `weekday_name`. -/
def weekday_name (d : PyDate) : List Char :=
  weekdayNamesE.getD (pyWeekday d) []

/-- One date row of a Task E week section. -/
def weekRowE (daily : DailyE) (day : PyDate) : List Char :=
  let s := (alGet daily day).getD []
  let c1 := format_kwh_finnish (wh_to_kwh ((alGet s (chars "cons_v1")).getD 0))
  let c2 := format_kwh_finnish (wh_to_kwh ((alGet s (chars "cons_v2")).getD 0))
  let c3 := format_kwh_finnish (wh_to_kwh ((alGet s (chars "cons_v3")).getD 0))
  let p1 := format_kwh_finnish (wh_to_kwh ((alGet s (chars "prod_v1")).getD 0))
  let p2 := format_kwh_finnish (wh_to_kwh ((alGet s (chars "prod_v2")).getD 0))
  let p3 := format_kwh_finnish (wh_to_kwh ((alGet s (chars "prod_v3")).getD 0))
  padRightChars 9 (weekday_name day) ++ chars " " ++
    padRightChars 11 (format_date_finnish day) ++ chars " " ++
    padLeftChars 7 c1 ++ chars " " ++ padLeftChars 7 c2 ++ chars " " ++
    padLeftChars 7 c3 ++ chars "   " ++
    padLeftChars 7 p1 ++ chars " " ++ padLeftChars 7 p2 ++ chars " " ++ padLeftChars 7 p3

/-- Task E `format_week_section`: a title line, two column-header lines, a
separator rule, one row per date in ascending order, and a trailing empty
line. -/
def format_week_section (week_number : Nat) (daily : DailyE) : List (List Char) :=
  (chars "Week " ++ natToDecChars week_number ++
    chars " electricity consumption and production (kWh, by phase)") ::
  chars "Day       Date         Consumption [kWh]           Production [kWh]" ::
  chars "                      v1      v2      v3           v1      v2      v3" ::
  List.replicate 75 '-' ::
  ((sortByLe dateLe (alKeys daily)).map (weekRowE daily) ++ [[]])

/-- Inner loop of Task E `sum_week_totals`: add one day to the running
totals, walking the snapshot of the totals keys; a key the day summary lacks
is a `KeyError`. -/
def addKeysFrom (ds : SummaryE) : List (List Char) → SummaryE → Option SummaryE
  | [], t => some t
  | k :: ks, t =>
    match alGet ds k with
    | none => none
    | some x => addKeysFrom ds ks (alModify t k (· + x))

/-- Outer loop of Task E `sum_week_totals` over the day summaries. -/
def sumWeekGo : List SummaryE → SummaryE → Option SummaryE
  | [], t => some t
  | ds :: rest, t =>
    match addKeysFrom ds (alKeys t) t with
    | none => none
    | some t' => sumWeekGo rest t'

/-- Task E `sum_week_totals`. -/
def sum_week_totals (daily : DailyE) : Option SummaryE :=
  sumWeekGo (alValues daily) initSummaryE

/- TASK A (`read_reservations.py`). -/

/-- One parsed reservation line. -/
structure Reservation where
  user_name : List Char
  resource : List Char
  start : PyDateTime
  finish : PyDateTime
  confirmed : Bool
  participants : ℤ
deriving DecidableEq, Repr

/-- Embedding of `parts[i]`: an out-of-range index is an `IndexError`. -/
def pyIndex {α : Type} (l : List α) (i : Nat) : Except PyError α :=
  match l.get? i with
  | some a => .ok a
  | none => .error .indexError

/-- Lift an optional parse result into the run, failing with `ValueError`. -/
def orValueError {α : Type} : Option α → Except PyError α
  | some a => .ok a
  | none => .error .valueError

/-- Task A `parse_reservation_line`: strip and split on semicolons, then
convert the six leading fields positionally.  Nothing catches an
out-of-range index or a conversion failure here. -/
def parse_reservation_line (line : List Char) : Except PyError Reservation := do
  let parts := pySplit ';' (pyStrip line)
  let u ← pyIndex parts 0
  let r ← pyIndex parts 1
  let s2 ← pyIndex parts 2
  let st ← orValueError (pyStrptimeYmdHM s2)
  let s3 ← pyIndex parts 3
  let en ← orValueError (pyStrptimeYmdHM s3)
  let s4 ← pyIndex parts 4
  let conf := pyLower s4 = chars "true"
  let s5 ← pyIndex parts 5
  let n ← orValueError (pyParseInt s5)
  .ok ⟨u, r, st, en, conf, n⟩

/-- The `for line in file` loop of Task A `read_reservations`: every line is
parsed, and any parse fault propagates. -/
def readReservationsGo : List (List Char) → Except PyError (List Reservation)
  | [] => .ok []
  | l :: rest => do
    let r ← parse_reservation_line l
    let rs ← readReservationsGo rest
    .ok (r :: rs)

/-- An apostrophe character, spelled by code point. -/
def squote : Char := Char.ofNat 39

/-- The console notice Task A prints for a missing file. -/
def noticeLine (filename : List Char) : List Char :=
  chars "File " ++ [squote] ++ filename ++ [squote] ++ chars " not found."

/-- Task A `read_reservations`: only `FileNotFoundError` is caught, producing
a printed notice and an empty list; every other fault propagates.  The
result pairs the printed console lines with the returned list. -/
def read_reservations (filename : List Char) (file : Option (List (List Char))) :
    Except PyError (List (List Char) × List Reservation) :=
  match file with
  | none => .ok ([noticeLine filename], [])
  | some lines =>
    match readReservationsGo lines with
    | .ok rs => .ok ([], rs)
    | .error e => .error e

/- Concrete scenario data and spec-side comparison functions. -/

/-- The scenario input file of the specification: a header line and two
hourly rows for 2025-10-13. -/
def scenarioLines : List (List Char) :=
  [chars "timestamp;cons_v1;cons_v2;cons_v3;prod_v1;prod_v2;prod_v3",
   chars "2025-10-13T00:00:00;100;200;300;10;20;30",
   chars "2025-10-13T01:00:00;50;50;50;5;5;5"]

/-- The calendar date of the scenario rows. -/
def scenarioDate : PyDate := ⟨2025, 10, 13⟩

/-- The measurements the scenario rows parse to. -/
def scenarioMeasurements : List Measurement :=
  [⟨⟨⟨2025, 10, 13⟩, 0, 0, 0⟩, 100, 200, 300, 10, 20, 30⟩,
   ⟨⟨⟨2025, 10, 13⟩, 1, 0, 0⟩, 50, 50, 50, 5, 5, 5⟩]

/-- A value rounded to two decimal places (ties to even): the reference
result of the format-then-parse round trip. -/
def roundTo2 (v : ℚ) : ℚ := (rhe (100 * v) : ℚ) / 100

/-- The accumulated total at a date and field key, zero while absent. -/
def sVal (daily : DailyE) (d : PyDate) (k : List Char) : ℚ :=
  ((alGet daily d).bind fun s => alGet s k).getD 0

/-- The summary recorded for a date whose first measurement is `m`: zero
start plus the fields of `m`. -/
def firstDaySummary (m : Measurement) : SummaryE :=
  [(chars "cons_v1", m.cons_v1), (chars "cons_v2", m.cons_v2), (chars "cons_v3", m.cons_v3),
   (chars "prod_v1", m.prod_v1), (chars "prod_v2", m.prod_v2), (chars "prod_v3", m.prod_v3)]

/-- Reference weekly rollup: for each of the six field keys in order, the sum
of that key over the day summaries in mapping order. -/
def weeklyFromDaily (daily : DailyE) : SummaryE :=
  summaryKeys.map fun k => (k, ((alValues daily).map fun s => (alGet s k).getD 0).sum)

/- Association list lemmas. -/

theorem alGet_alSet_same {K V : Type} [DecidableEq K] (m : List (K × V)) (k : K) (v : V) :
    alGet (alSet m k v) k = some v := by
  induction m with
  | nil => simp [alSet, alGet]
  | cons p t ih =>
    obtain ⟨k', v'⟩ := p
    by_cases h : k = k' <;> simp [alSet, alGet, h, ih]

theorem alGet_alSet_other {K V : Type} [DecidableEq K] (m : List (K × V)) (k k' : K) (v : V)
    (h : k ≠ k') : alGet (alSet m k' v) k = alGet m k := by
  induction m with
  | nil => simp [alSet, alGet, h]
  | cons p t ih =>
    obtain ⟨k₀, v₀⟩ := p
    by_cases h1 : k' = k₀
    · subst h1
      simp [alSet, alGet, h]
    · by_cases h2 : k = k₀ <;> simp [alSet, alGet, h1, h2, ih]

theorem alGet_alModify_same {K V : Type} [DecidableEq K] (m : List (K × V)) (k : K)
    (f : V → V) : alGet (alModify m k f) k = (alGet m k).map f := by
  induction m with
  | nil => simp [alModify, alGet]
  | cons p t ih =>
    obtain ⟨k', v'⟩ := p
    by_cases h : k = k' <;> simp [alModify, alGet, h, ih]

theorem alGet_alModify_other {K V : Type} [DecidableEq K] (m : List (K × V)) (k k' : K)
    (f : V → V) (h : k ≠ k') : alGet (alModify m k' f) k = alGet m k := by
  induction m with
  | nil => simp [alModify, alGet]
  | cons p t ih =>
    obtain ⟨k₀, v₀⟩ := p
    by_cases h1 : k' = k₀
    · subst h1
      simp [alModify, alGet, h]
    · by_cases h2 : k = k₀ <;> simp [alModify, alGet, h1, h2, ih]

theorem alKeys_alModify {K V : Type} [DecidableEq K] (m : List (K × V)) (k : K) (f : V → V) :
    alKeys (alModify m k f) = alKeys m := by
  induction m with
  | nil => simp [alModify]
  | cons p t ih =>
    obtain ⟨k', v'⟩ := p
    by_cases h : k = k'
    · simp [alModify, alKeys, h]
    · simp only [alModify, if_neg h, alKeys, List.map_cons]
      simpa [alKeys] using ih

theorem alKeys_alSet_new {K V : Type} [DecidableEq K] (m : List (K × V)) (k : K) (v : V)
    (h : alGet m k = none) : alKeys (alSet m k v) = alKeys m ++ [k] := by
  induction m with
  | nil => simp [alSet, alKeys]
  | cons p t ih =>
    obtain ⟨k', v'⟩ := p
    by_cases h1 : k = k'
    · simp [alGet, h1] at h
    · simp [alGet, h1] at h
      simp [alSet, alKeys, h1] at ih ⊢
      exact ih h

theorem mem_alKeys_iff {K V : Type} [DecidableEq K] (m : List (K × V)) (k : K) :
    k ∈ alKeys m ↔ (alGet m k).isSome := by
  induction m with
  | nil => simp [alKeys, alGet]
  | cons p t ih =>
    obtain ⟨k', v'⟩ := p
    by_cases h : k = k'
    · simp [alKeys, alGet, h]
    · rw [show alKeys ((k', v') :: t) = k' :: alKeys t from rfl, List.mem_cons, ih]
      simp [alGet, h]

theorem alGet_of_forall_ne {K V : Type} [DecidableEq K] (m : List (K × V)) (k : K)
    (h : ∀ p ∈ m, k ≠ p.1) : alGet m k = none := by
  induction m with
  | nil => simp [alGet]
  | cons p t ih =>
    obtain ⟨k', v'⟩ := p
    have hk : k ≠ k' := h (k', v') (by simp)
    simp only [alGet, if_neg hk]
    exact ih fun p hp => h p (by simp [hp])

theorem alValues_pred_alModify {K V : Type} [DecidableEq K] (m : List (K × V)) (k : K)
    (f : V → V) (P : V → Prop) (hm : ∀ p ∈ m, P p.2) (hf : ∀ v, P v → P (f v)) :
    ∀ p ∈ alModify m k f, P p.2 := by
  induction m with
  | nil => simp [alModify]
  | cons q t ih =>
    obtain ⟨k', v'⟩ := q
    by_cases h : k = k'
    · simp only [alModify, if_pos h]
      intro p hp
      rcases List.mem_cons.mp hp with h1 | h1
      · subst h1
        exact hf v' (hm (k', v') (by simp))
      · exact hm p (by simp [h1])
    · simp only [alModify, if_neg h]
      intro p hp
      rcases List.mem_cons.mp hp with h1 | h1
      · subst h1
        exact hm (k', v') (by simp)
      · exact ih (fun q hq => hm q (by simp [hq])) p h1

theorem alValues_pred_alSet {K V : Type} [DecidableEq K] (m : List (K × V)) (k : K) (v : V)
    (P : V → Prop) (hm : ∀ p ∈ m, P p.2) (hv : P v) : ∀ p ∈ alSet m k v, P p.2 := by
  induction m with
  | nil => simpa [alSet] using hv
  | cons q t ih =>
    obtain ⟨k', v'⟩ := q
    by_cases h : k = k'
    · simp only [alSet, if_pos h]
      intro p hp
      rcases List.mem_cons.mp hp with h1 | h1
      · subst h1; exact hv
      · exact hm p (by simp [h1])
    · simp only [alSet, if_neg h]
      intro p hp
      rcases List.mem_cons.mp hp with h1 | h1
      · subst h1
        exact hm (k', v') (by simp)
      · exact ih (fun q hq => hm q (by simp [hq])) p h1

theorem al_eq_of_keys_get {K V : Type} [DecidableEq K] :
    ∀ (m m' : List (K × V)), alKeys m = alKeys m' → (alKeys m).Nodup →
      (∀ k ∈ alKeys m, alGet m k = alGet m' k) → m = m'
  | [], [], _, _, _ => rfl
  | [], (k, v) :: t, hk, _, _ => by simp [alKeys] at hk
  | (k, v) :: t, [], hk, _, _ => by simp [alKeys] at hk
  | (k, v) :: t, (k', v') :: t', hk, hnd, hg => by
    have hk2 : k = k' ∧ alKeys t = alKeys t' :=
      List.cons_eq_cons.mp (show k :: alKeys t = k' :: alKeys t' from hk)
    obtain ⟨rfl, htk⟩ := hk2
    have hv : v = v' := by
      have h0 := hg k (show k ∈ k :: alKeys t by simp)
      simpa [alGet] using h0
    have hnd2 := List.nodup_cons.mp (show (k :: alKeys t).Nodup from hnd)
    have ht : t = t' := by
      refine al_eq_of_keys_get t t' htk hnd2.2 fun k₁ hk₁ => ?_
      have hne : k₁ ≠ k := fun h => hnd2.1 (h ▸ hk₁)
      have h1 := hg k₁ (show k₁ ∈ k :: alKeys t from List.mem_cons_of_mem _ hk₁)
      simpa [alGet, if_neg hne] using h1
    rw [hv, ht]

/- Digit and decimal-rendering lemmas. -/

theorem digToNat_digitChar (d : Nat) (h : d < 10) : digToNat (digitChar d) = d := by
  interval_cases d <;> decide

theorem isDigit_digitChar (d : Nat) (h : d < 10) : (digitChar d).isDigit = true := by
  interval_cases d <;> decide

theorem ne_comma_of_isDigit (c : Char) (h : c.isDigit = true) : c ≠ ',' := by
  rintro rfl
  exact absurd h (by decide)

theorem not_whitespace_of_isDigit (c : Char) (h : c.isDigit = true) :
    c.isWhitespace = false := by
  by_contra hw
  have hw' : c.isWhitespace = true := by
    cases hv : c.isWhitespace
    · exact absurd hv hw
    · rfl
  have hc : ((c = ' ' ∨ c = '\t') ∨ c = '\r') ∨ c = '\n' := by
    simpa [Char.isWhitespace] using hw'
  rcases hc with ((rfl | rfl) | rfl) | rfl <;> exact absurd h (by decide)

theorem ne_of_isDigit (c x : Char) (h : c.isDigit = true) (hx : x.isDigit = false) :
    c ≠ x := by
  rintro rfl
  rw [h] at hx
  exact absurd hx (by simp)

theorem digitsVal_append_last (l : List Char) (c : Char) :
    digitsVal (l ++ [c]) = digitsVal l * 10 + digToNat c := by
  simp [digitsVal, List.foldl_append]

theorem natDigitsRev_val (fuel : Nat) :
    ∀ n, n ≤ fuel → digitsVal (natDigitsRev fuel n).reverse = n := by
  induction fuel with
  | zero =>
    intro n hn
    interval_cases n
    simp [natDigitsRev, digitsVal]
  | succ fuel ih =>
    intro n hn
    match n with
    | 0 => simp [natDigitsRev, digitsVal]
    | n + 1 =>
      have hq : (n + 1) / 10 ≤ fuel := by
        have := Nat.div_le_self (n + 1) 10
        have h2 : (n + 1) / 10 < n + 1 := Nat.div_lt_self (Nat.succ_pos n) (by omega)
        omega
      have hr : (n + 1) % 10 < 10 := Nat.mod_lt _ (by omega)
      calc digitsVal (natDigitsRev (fuel + 1) (n + 1)).reverse
          = digitsVal ((natDigitsRev fuel ((n + 1) / 10)).reverse ++
              [digitChar ((n + 1) % 10)]) := by
            simp [natDigitsRev]
        _ = (n + 1) / 10 * 10 + (n + 1) % 10 := by
            rw [digitsVal_append_last, ih _ hq, digToNat_digitChar _ hr]
        _ = n + 1 := by omega

theorem natDigitsRev_digits (fuel : Nat) :
    ∀ n, ∀ c ∈ natDigitsRev fuel n, c.isDigit = true := by
  induction fuel with
  | zero =>
    intro n c hc
    match n with
    | 0 => simp [natDigitsRev] at hc
    | n + 1 => simp [natDigitsRev] at hc
  | succ fuel ih =>
    intro n c hc
    match n with
    | 0 => simp [natDigitsRev] at hc
    | n + 1 =>
      simp only [natDigitsRev, List.mem_cons] at hc
      rcases hc with rfl | hc
      · exact isDigit_digitChar _ (Nat.mod_lt _ (by omega))
      · exact ih _ c hc

theorem natToDecChars_val (n : Nat) : digitsVal (natToDecChars n) = n := by
  by_cases h : n = 0
  · subst h
    simp [natToDecChars, chars, digitsVal, digToNat]
  · simp only [natToDecChars, if_neg h]
    exact natDigitsRev_val n n le_rfl

theorem natToDecChars_digits (n : Nat) : ∀ c ∈ natToDecChars n, c.isDigit = true := by
  by_cases h : n = 0
  · subst h
    intro c hc
    simp [natToDecChars, chars] at hc
    simp [hc]
  · simp only [natToDecChars, if_neg h]
    intro c hc
    exact natDigitsRev_digits n n c (List.mem_reverse.mp hc)

theorem natToDecChars_ne_nil (n : Nat) : natToDecChars n ≠ [] := by
  by_cases h : n = 0
  · subst h
    simp [natToDecChars, chars]
  · simp only [natToDecChars, if_neg h]
    match n, h with
    | n + 1, _ =>
      simp [natDigitsRev]

theorem twoDigitChars_val (r : Nat) (h : r < 100) : digitsVal (twoDigitChars r) = r := by
  have h1 : r / 10 < 10 := by omega
  have h2 : r % 10 < 10 := Nat.mod_lt _ (by omega)
  simp [twoDigitChars, digitsVal, digToNat_digitChar _ h1, digToNat_digitChar _ h2]
  omega

theorem twoDigitChars_digits (r : Nat) (h : r < 100) :
    ∀ c ∈ twoDigitChars r, c.isDigit = true := by
  have h1 : r / 10 < 10 := by omega
  have h2 : r % 10 < 10 := Nat.mod_lt _ (by omega)
  intro c hc
  simp only [twoDigitChars, List.mem_cons, List.mem_singleton] at hc
  rcases hc with rfl | rfl | hc
  · exact isDigit_digitChar _ h1
  · exact isDigit_digitChar _ h2
  · simp at hc

/- Splitting and stripping lemmas for the round-trip proof. -/

theorem takeWhile_middle (p : Char → Bool) (l₁ l₂ : List Char) (b : Char)
    (h1 : ∀ c ∈ l₁, p c = true) (hb : p b = false) :
    (l₁ ++ b :: l₂).takeWhile p = l₁ := by
  induction l₁ with
  | nil => simp [List.takeWhile, hb]
  | cons c t ih =>
    have hc : p c = true := h1 c (by simp)
    simp only [List.cons_append, List.takeWhile_cons, hc, if_true]
    rw [ih fun c hc => h1 c (by simp [hc])]

theorem dropWhile_middle (p : Char → Bool) (l₁ l₂ : List Char) (b : Char)
    (h1 : ∀ c ∈ l₁, p c = true) (hb : p b = false) :
    (l₁ ++ b :: l₂).dropWhile p = b :: l₂ := by
  induction l₁ with
  | nil => simp [List.dropWhile, hb]
  | cons c t ih =>
    have hc : p c = true := h1 c (by simp)
    simp only [List.cons_append, List.dropWhile_cons, hc, if_true]
    exact ih fun c hc => h1 c (by simp [hc])

theorem dropWhile_all_false (p : Char → Bool) (l : List Char)
    (h : ∀ c ∈ l, p c = false) : l.dropWhile p = l := by
  cases l with
  | nil => rfl
  | cons c t => simp [List.dropWhile_cons, h c (by simp)]

theorem pyStrip_no_whitespace (cs : List Char)
    (h : ∀ c ∈ cs, c.isWhitespace = false) : pyStrip cs = cs := by
  unfold pyStrip
  rw [dropWhile_all_false _ _ h,
    dropWhile_all_false _ _ (fun c hc => h c (List.mem_reverse.mp hc)),
    List.reverse_reverse]

/- Rounding sign lemmas. -/

theorem rhe_nonneg (x : ℚ) (h : 0 ≤ x) : 0 ≤ rhe x := by
  have hf : (0 : ℤ) ≤ ⌊x⌋ := Int.le_floor.mpr (by exact_mod_cast h)
  simp only [rhe]
  split
  · exact hf
  · split
    · omega
    · split <;> omega

theorem rhe_nonpos (x : ℚ) (h : x < 0) : rhe x ≤ 0 := by
  have hf : ⌊x⌋ < 0 := Int.floor_lt.mpr (by exact_mod_cast h)
  have hr : x - (⌊x⌋ : ℚ) < 1 := by
    have := Int.sub_one_lt_floor x
    push_cast at this ⊢
    linarith
  simp only [rhe]
  split
  · omega
  · split
    · omega
    · split <;> omega

theorem parseUnsignedFloat_format (q r : Nat) (hr : r < 100) :
    parseUnsignedFloat (natToDecChars q ++ '.' :: twoDigitChars r) =
      some ((q : ℚ) + (r : ℚ) / 100) := by
  have hds : ∀ c ∈ natToDecChars q, (fun c => decide (c ≠ '.')) c = true := fun c hc => by
    simpa using ne_of_isDigit c '.' (natToDecChars_digits q c hc) (by decide)
  have hdot : (fun c => decide (c ≠ '.')) '.' = false := by simp
  have h1 : (natToDecChars q ++ '.' :: twoDigitChars r).takeWhile (fun c => decide (c ≠ '.')) =
      natToDecChars q := takeWhile_middle _ _ _ _ hds hdot
  have h2 : (natToDecChars q ++ '.' :: twoDigitChars r).dropWhile (fun c => decide (c ≠ '.')) =
      '.' :: twoDigitChars r := dropWhile_middle _ _ _ _ hds hdot
  have hq : allDigits (natToDecChars q) = true := by
    rw [allDigits, List.all_eq_true]
    exact fun c hc => natToDecChars_digits q c hc
  have hfs : allDigits (twoDigitChars r) = true := by
    rw [allDigits, List.all_eq_true]
    exact fun c hc => twoDigitChars_digits r hr c hc
  simp only [parseUnsignedFloat, h1, h2]
  rw [if_pos ⟨hq, hfs, Or.inl (natToDecChars_ne_nil q)⟩, natToDecChars_val,
    twoDigitChars_val r hr]
  norm_num [twoDigitChars]

theorem formatTwoDecChars_no_whitespace (v : ℚ) :
    ∀ c ∈ formatTwoDecChars v, c.isWhitespace = false := by
  intro c hc
  simp only [formatTwoDecChars, List.mem_append] at hc
  rcases hc with ((hc | hc) | hc) | hc
  · split at hc
    · have : c = '-' := by simpa [chars] using hc
      subst this; decide
    · simp at hc
  · exact not_whitespace_of_isDigit c (natToDecChars_digits _ c hc)
  · have : c = '.' := by simpa [chars] using hc
    subst this; decide
  · exact not_whitespace_of_isDigit c
      (twoDigitChars_digits _ (Nat.mod_lt _ (by omega)) c hc)

theorem parse_formatTwoDec (v : ℚ) :
    parsePyFloat (formatTwoDecChars v) = some ((rhe (100 * v) : ℚ) / 100) := by
  have hstrip : pyStrip (formatTwoDecChars v) = formatTwoDecChars v :=
    pyStrip_no_whitespace _ (formatTwoDecChars_no_whitespace v)
  have hmod : (rhe (100 * v)).natAbs % 100 < 100 := Nat.mod_lt _ (by omega)
  have hqsum : ((rhe (100 * v)).natAbs : ℚ) =
      100 * ((rhe (100 * v)).natAbs / 100 : Nat) + ((rhe (100 * v)).natAbs % 100 : Nat) := by
    exact_mod_cast (Nat.div_add_mod (rhe (100 * v)).natAbs 100).symm
  by_cases hv : v < 0
  · have hn : rhe (100 * v) ≤ 0 := rhe_nonpos _ (by nlinarith)
    have hcast : ((rhe (100 * v)).natAbs : ℚ) = -((rhe (100 * v) : ℤ) : ℚ) := by
      rw [Int.cast_natAbs, abs_of_nonpos hn]
      push_cast
      ring
    have hform : formatTwoDecChars v = '-' :: (natToDecChars ((rhe (100 * v)).natAbs / 100) ++
        '.' :: twoDigitChars ((rhe (100 * v)).natAbs % 100)) := by
      simp [formatTwoDecChars, if_pos hv, chars, twoDigitChars]
    simp only [parsePyFloat, hstrip]
    rw [hform]
    simp only [List.headD_cons, List.tail_cons, if_pos]
    rw [parseUnsignedFloat_format _ _ hmod]
    simp only [Option.map_some']
    congr 1
    have h2 : 100 * ((rhe (100 * v)).natAbs / 100 : Nat) +
        ((rhe (100 * v)).natAbs % 100 : Nat) = -((rhe (100 * v) : ℤ) : ℚ) := by
      rw [← hcast]
      exact hqsum.symm
    linarith [h2]
  · have hn : 0 ≤ rhe (100 * v) := rhe_nonneg _ (by push_neg at hv; nlinarith)
    have hcast : ((rhe (100 * v)).natAbs : ℚ) = ((rhe (100 * v) : ℤ) : ℚ) := by
      rw [Int.cast_natAbs, abs_of_nonneg hn]
    have hform : formatTwoDecChars v = natToDecChars ((rhe (100 * v)).natAbs / 100) ++
        '.' :: twoDigitChars ((rhe (100 * v)).natAbs % 100) := by
      simp [formatTwoDecChars, if_neg hv, chars, twoDigitChars]
    obtain ⟨c, cs', hcs⟩ :=
      List.exists_cons_of_ne_nil (natToDecChars_ne_nil ((rhe (100 * v)).natAbs / 100))
    have hcdig : c.isDigit = true := by
      have hmem : c ∈ natToDecChars ((rhe (100 * v)).natAbs / 100) := by
        rw [hcs]; exact List.mem_cons_self c cs'
      exact natToDecChars_digits _ c hmem
    have hne1 : c ≠ '-' := ne_of_isDigit c '-' hcdig (by decide)
    have hne2 : c ≠ '+' := ne_of_isDigit c '+' hcdig (by decide)
    have hhead : (formatTwoDecChars v).headD ' ' = c := by
      rw [hform, hcs]
      rfl
    simp only [parsePyFloat, hstrip, hhead, if_neg hne1, if_neg hne2]
    rw [hform, parseUnsignedFloat_format _ _ hmod]
    congr 1
    have h2 : 100 * ((rhe (100 * v)).natAbs / 100 : Nat) +
        ((rhe (100 * v)).natAbs % 100 : Nat) = ((rhe (100 * v) : ℤ) : ℚ) := by
      rw [← hcast]
      exact hqsum.symm
    linarith [h2]

theorem formatTwoDecChars_no_comma (v : ℚ) : ∀ c ∈ formatTwoDecChars v, c ≠ ',' := by
  intro c hc
  simp only [formatTwoDecChars, List.mem_append] at hc
  rcases hc with ((hc | hc) | hc) | hc
  · split at hc
    · have : c = '-' := by simpa [chars] using hc
      subst this; decide
    · simp at hc
  · exact ne_comma_of_isDigit c (natToDecChars_digits _ c hc)
  · have : c = '.' := by simpa [chars] using hc
    subst this; decide
  · exact ne_comma_of_isDigit c (twoDigitChars_digits _ (Nat.mod_lt _ (by omega)) c hc)

theorem replace_comma_dot_cancel (cs : List Char) (h : ∀ c ∈ cs, c ≠ ',') :
    pyReplaceChar ',' '.' (pyReplaceChar '.' ',' cs) = cs := by
  induction cs with
  | nil => rfl
  | cons c t ih =>
    have hc : c ≠ ',' := h c (by simp)
    have ht : pyReplaceChar ',' '.' (pyReplaceChar '.' ',' t) = t :=
      ih fun c hc => h c (by simp [hc])
    by_cases hd : c = '.'
    · subst hd
      simpa [pyReplaceChar] using congrArg (fun l => l) ht
    · simp only [pyReplaceChar, List.map_cons, if_neg hd, if_neg hc]
      simpa [pyReplaceChar] using ht

/-- C6: for every kWh value `v`, formatting it with the two-decimal
comma-separator formatter and parsing the result back as a decimal number
after substituting the comma with a period recovers `v` rounded to two
decimal places; the same round trip holds for the Task D formatter, whose
input is in Wh and is divided by 1000 before formatting. -/
theorem c6_format_parse_roundtrip (v : ℚ) :
    parsePyFloat (pyReplaceChar ',' '.' (format_kwh_finnish v)) = some (roundTo2 v) ∧
    parsePyFloat (pyReplaceChar ',' '.' (format_kwh v)) = some (roundTo2 (v / 1000)) := by
  constructor
  · rw [format_kwh_finnish, replace_comma_dot_cancel _ (formatTwoDecChars_no_comma v),
      parse_formatTwoDec, roundTo2]
  · rw [format_kwh, replace_comma_dot_cancel _ (formatTwoDecChars_no_comma _),
      parse_formatTwoDec, roundTo2]

/-- C1: the two scenario rows for 2025-10-13 aggregate, in both the Task D
and the Task E pipeline, to a single group keyed by that date with totals
cons 150/250/350 Wh and prod 15/25/35 Wh, and the kWh formatters render the
cons_v1 total as the string "0,15". -/
theorem c1_scenario_aggregation :
    calculate_daily_totals (read_data_rows scenarioLines) =
      some [(scenarioDate,
        [(chars "cons", [150, 250, 350]), (chars "prod", [15, 25, 35])])] ∧
    read_data_E (some scenarioLines) = .ok scenarioMeasurements ∧
    calculate_daily_summaries scenarioMeasurements =
      [(scenarioDate,
        [(chars "cons_v1", 150), (chars "cons_v2", 250), (chars "cons_v3", 350),
         (chars "prod_v1", 15), (chars "prod_v2", 25), (chars "prod_v3", 35)])] ∧
    format_kwh 150 = chars "0,15" ∧
    format_kwh_finnish (wh_to_kwh 150) = chars "0,15" := by
  refine ⟨?_, ?_, ?_, ?_, ?_⟩
  · have h : read_data_rows scenarioLines =
        [[chars "2025-10-13T00:00:00", chars "100", chars "200", chars "300",
          chars "10", chars "20", chars "30"],
         [chars "2025-10-13T01:00:00", chars "50", chars "50", chars "50",
          chars "5", chars "5", chars "5"]] := by decide
    rw [h]
    simp [calculate_daily_totals, calcDGo, calcStepD, pyFromIsoformat, pySplit,
      parseIsoDate, parseDigitsNat, allDigits, digitsVal, digToNat, chars,
      parsePyFloat, pyStrip, parseUnsignedFloat, alContains, alGet, alSet,
      addAtD, alModify, listModify, initDailyD, scenarioDate, Bind.bind, Option.bind]
    norm_num
  · simp [read_data_E, readRowsE, rowToMeasurementE, pyFromIsoformat, pySplit,
      parseIsoDate, parseDigitsNat, allDigits, digitsVal, digToNat, chars,
      parsePyFloat, pyStrip, parseUnsignedFloat, scenarioLines, scenarioMeasurements,
      Bind.bind, Option.bind]
  · simp [calculate_daily_summaries, calcStepE, scenarioMeasurements, scenarioDate,
      addFieldE, alContains, alGet, alSet, alModify, initSummaryE, chars]
    norm_num
  · have h : rhe (100 * ((150 : ℚ) / 1000)) = 15 := by norm_num [rhe]
    simp [format_kwh, formatTwoDecChars, h, pyReplaceChar, natToDecChars,
      natDigitsRev, twoDigitChars, digitChar, chars]
    norm_num
  · have h : rhe (100 * ((150 : ℚ) / 1000)) = 15 := by norm_num [rhe]
    simp [format_kwh_finnish, wh_to_kwh, formatTwoDecChars, h, pyReplaceChar,
      natToDecChars, natDigitsRev, twoDigitChars, digitChar, chars]
    norm_num

/- Reader skipping lemmas. -/

theorem dataRowsD_skip_middle (l₂ : List (List Char)) (s : List Char)
    (hs : (pySplit ';' s).length < 7) :
    ∀ l₁, dataRowsD (l₁ ++ s :: l₂) = dataRowsD (l₁ ++ l₂) := by
  intro l₁
  induction l₁ with
  | nil =>
    by_cases h : s = []
    · simp [dataRowsD, h]
    · simp [dataRowsD, h, if_pos hs]
  | cons line rest ih =>
    by_cases h : line = []
    · simp [dataRowsD, h, ih]
    · by_cases h7 : (pySplit ';' line).length < 7
      · simp [dataRowsD, h, h7, ih]
      · simp [dataRowsD, h, h7, ih]

theorem readRowsE_skip_middle (S : List (List (List Char))) (r : List (List Char))
    (hr : r.length < 7) :
    ∀ R, readRowsE (R ++ r :: S) = readRowsE (R ++ S) := by
  intro R
  induction R with
  | nil => simp [readRowsE, hr]
  | cons r₀ rest ih =>
    by_cases h : r₀.length < 7
    · simp [readRowsE, h, ih]
    · simp only [List.cons_append, readRowsE, if_neg h]
      rw [show rest.append (r :: S) = rest ++ r :: S from rfl,
        show rest.append S = rest ++ S from rfl, ih]

theorem parse_short_line_fails (s : List Char)
    (h : (pySplit ';' (pyStrip s)).length < 6) :
    ∃ e, parse_reservation_line s = .error e := by
  have h5 : (pySplit ';' (pyStrip s))[5]? = none :=
    List.getElem?_eq_none (by omega)
  have h5' : pyIndex (pySplit ';' (pyStrip s)) 5 = .error .indexError := by
    simp [pyIndex, h5]
  simp only [parse_reservation_line]
  cases h0 : pyIndex (pySplit ';' (pyStrip s)) 0 with
  | error e => exact ⟨e, by simp [h0, Bind.bind, Except.bind]⟩
  | ok u =>
  cases h1 : pyIndex (pySplit ';' (pyStrip s)) 1 with
  | error e => exact ⟨e, by simp [h0, h1, Bind.bind, Except.bind]⟩
  | ok r =>
  cases h2 : pyIndex (pySplit ';' (pyStrip s)) 2 with
  | error e => exact ⟨e, by simp [h0, h1, h2, Bind.bind, Except.bind]⟩
  | ok s2 =>
  cases hst : orValueError (pyStrptimeYmdHM s2) with
  | error e => exact ⟨e, by simp [h0, h1, h2, hst, Bind.bind, Except.bind]⟩
  | ok st =>
  cases h3 : pyIndex (pySplit ';' (pyStrip s)) 3 with
  | error e => exact ⟨e, by simp [h0, h1, h2, hst, h3, Bind.bind, Except.bind]⟩
  | ok s3 =>
  cases hen : orValueError (pyStrptimeYmdHM s3) with
  | error e => exact ⟨e, by simp [h0, h1, h2, hst, h3, hen, Bind.bind, Except.bind]⟩
  | ok en =>
  cases h4 : pyIndex (pySplit ';' (pyStrip s)) 4 with
  | error e => exact ⟨e, by simp [h0, h1, h2, hst, h3, hen, h4, Bind.bind, Except.bind]⟩
  | ok s4 =>
  exact ⟨.indexError,
    by simp [h0, h1, h2, hst, h3, hen, h4, h5', Bind.bind, Except.bind]⟩

/-- C7: on a missing input file the reservation reader returns normally with
a printed notice and an empty list, while both measurement readers let the
missing-file fault propagate as an unhandled error. -/
theorem c7_missing_file_behavior (filename : List Char) :
    read_reservations filename none = .ok ([noticeLine filename], []) ∧
    read_data_D none = .error .fileNotFound ∧
    read_data_E none = .error .fileNotFound :=
  ⟨rfl, rfl, rfl⟩

/-- C3 counterexample: the reservation reader does not silently skip a line
with too few fields; on a file whose only line is the two-field line "a;b"
(fewer than the six required fields) the read propagates an IndexError
instead of skipping and continuing. -/
theorem c3_reservation_reader_raises :
    read_reservations (chars "reservations.txt") (some [chars "a;b"]) =
      .error .indexError := by
  rfl

/-- C3 amended: in the measurement readers (Tasks D and E) a line that
splits into fewer than seven fields is silently skipped and processing
continues with the remaining lines; the reservation reader does not share
this policy: a line with fewer than six fields makes
`parse_reservation_line` raise, and `read_reservations` propagates the
fault. -/
theorem c3_short_line_policy_amended :
    (∀ (hd s : List Char) (l₁ l₂ : List (List Char)),
      (pySplit ';' (pyStrip s)).length < 7 →
      read_data_rows (hd :: (l₁ ++ s :: l₂)) = read_data_rows (hd :: (l₁ ++ l₂))) ∧
    (∀ (hd s : List Char) (l₁ l₂ : List (List Char)),
      (pySplit ';' s).length < 7 →
      read_data_E (some (hd :: (l₁ ++ s :: l₂))) = read_data_E (some (hd :: (l₁ ++ l₂)))) ∧
    (∀ s : List Char, (pySplit ';' (pyStrip s)).length < 6 →
      ∃ e, parse_reservation_line s = .error e) := by
  refine ⟨?_, ?_, parse_short_line_fails⟩
  · intro hd s l₁ l₂ hs
    simp only [read_data_rows, List.map_cons, List.drop_succ_cons, List.drop_zero,
      List.map_append]
    exact dataRowsD_skip_middle (l₂.map pyStrip) (pyStrip s) hs (l₁.map pyStrip)
  · intro hd s l₁ l₂ hs
    simp only [read_data_E, List.map_cons, List.drop_succ_cons, List.drop_zero,
      List.map_append]
    rw [readRowsE_skip_middle (l₂.map (pySplit ';')) (pySplit ';' s) hs
      (l₁.map (pySplit ';'))]

/-- Witness for the amended C3 statement at concrete inputs: a four-field
line is dropped by both measurement readers without affecting the other
rows, and the same line makes the reservation parser fail. -/
theorem c3_short_line_policy_amended_witness :
    read_data_rows [chars "h", chars "a;b;c;d",
      chars "2025-10-13T00:00:00;1;2;3;4;5;6"] =
      read_data_rows [chars "h", chars "2025-10-13T00:00:00;1;2;3;4;5;6"] ∧
    read_data_E (some [chars "h", chars "a;b;c;d",
      chars "2025-10-13T00:00:00;1;2;3;4;5;6"]) =
      read_data_E (some [chars "h", chars "2025-10-13T00:00:00;1;2;3;4;5;6"]) ∧
    ∃ e, parse_reservation_line (chars "a;b;c;d") = .error e := by
  refine ⟨?_, ?_, ?_⟩
  · exact c3_short_line_policy_amended.1 (chars "h") (chars "a;b;c;d")
      [] [chars "2025-10-13T00:00:00;1;2;3;4;5;6"] (by decide)
  · exact c3_short_line_policy_amended.2.1 (chars "h") (chars "a;b;c;d")
      [] [chars "2025-10-13T00:00:00;1;2;3;4;5;6"] (by decide)
  · exact c3_short_line_policy_amended.2.2 (chars "a;b;c;d") (by decide)

/-- C4 counterexample: in the reservation reader the first line is not
discarded; a file whose first line is a header makes the read fail when the
header text refuses to parse as a date, contradicting that a first line can
never cause a read to fail. -/
theorem c4_reservation_header_fails :
    read_reservations (chars "reservations.txt")
      (some [chars "user_name;resource;start;end;confirmed;participants"]) =
      .error .valueError := by
  rfl

/-- C4 amended: the measurement readers (Tasks D and E) treat the first line
as a header and always discard it without validation, so its content never
contributes a record and never causes the read to fail; the reservation
reader has no header handling and parses every line including the first,
which can contribute a record. -/
theorem c4_header_discard_amended :
    (∀ (h₁ h₂ : List Char) (rest : List (List Char)),
      read_data_rows (h₁ :: rest) = read_data_rows (h₂ :: rest)) ∧
    (∀ h₁ : List Char, read_data_rows [h₁] = []) ∧
    (∀ (h₁ h₂ : List Char) (rest : List (List Char)),
      read_data_E (some (h₁ :: rest)) = read_data_E (some (h₂ :: rest))) ∧
    (∀ h₁ : List Char, read_data_E (some [h₁]) = .ok []) ∧
    read_reservations (chars "reservations.txt")
      (some [chars "alice;sauna;2025-10-13 10:00;2025-10-13 11:00;True;3"]) =
      .ok ([], [⟨chars "alice", chars "sauna", ⟨⟨2025, 10, 13⟩, 10, 0, 0⟩,
        ⟨⟨2025, 10, 13⟩, 11, 0, 0⟩, true, 3⟩]) := by
  refine ⟨?_, ?_, ?_, ?_, ?_⟩
  · intro h₁ h₂ rest
    simp [read_data_rows]
  · intro h₁
    simp [read_data_rows, dataRowsD]
  · intro h₁ h₂ rest
    simp [read_data_E]
  · intro h₁
    simp [read_data_E, readRowsE]
  · rfl

/-- C9: the weekday label a report row prints is the full English weekday
name with its first letter capitalized, chosen Monday-first (index 0) by the
`weekday()` rule: the Task D label (lowercase name then `capitalize()`)
agrees with the Task E name for every date, the two name tables agree under
capitalization, the weekday index is always below seven, and on anchor
dates of known ISO weekday (2025-10-13 a Monday, 2025-10-19 a Sunday,
2024-02-29 a Thursday) the label is the expected English name. -/
theorem c9_weekday_names (d : PyDate) :
    pyCapitalize (weekday_name_finnish d) = weekday_name d ∧
    weekdayNamesE = weekdayNamesLower.map pyCapitalize ∧
    pyWeekday d < 7 ∧
    weekday_name ⟨2025, 10, 13⟩ = chars "Monday" ∧
    weekday_name ⟨2025, 10, 19⟩ = chars "Sunday" ∧
    weekday_name ⟨2024, 2, 29⟩ = chars "Thursday" ∧
    pyCapitalize (weekday_name_finnish ⟨2025, 10, 13⟩) = chars "Monday" := by
  have h7 : pyWeekday d < 7 := by
    simp only [pyWeekday]
    exact Nat.mod_lt _ (by omega)
  refine ⟨?_, by decide, h7, by decide, by decide, by decide, by decide⟩
  rw [weekday_name, weekday_name_finnish]
  set k := pyWeekday d with hk
  clear_value k
  interval_cases k <;> decide

/- Lemmas for the extra-field claims. -/

theorem dataRowsD_append (A B : List (List Char)) :
    dataRowsD (A ++ B) = dataRowsD A ++ dataRowsD B := by
  induction A with
  | nil => simp [dataRowsD]
  | cons line rest ih =>
    by_cases h : line = []
    · simp [dataRowsD, h, ih]
    · by_cases h7 : (pySplit ';' line).length < 7
      · simp [dataRowsD, h, h7, ih]
      · simp [dataRowsD, h, h7, ih]

theorem dataRowsD_accept (s : List Char) (l₂ : List (List Char))
    (hs : 7 ≤ (pySplit ';' s).length) :
    dataRowsD (s :: l₂) = pySplit ';' s :: dataRowsD l₂ := by
  have hne : s ≠ [] := by
    rintro rfl
    simp [pySplit] at hs
  simp [dataRowsD, hne, Nat.not_lt.mpr hs]

theorem getD_append_left {α : Type} (r e : List α) (i : Nat) (d : α) (h : i < r.length) :
    (r ++ e).getD i d = r.getD i d := by
  induction r generalizing i with
  | nil => simp at h
  | cons a t ih =>
    cases i with
    | zero => simp [List.getD]
    | succ i =>
      simp only [List.length_cons, Nat.add_lt_add_iff_right] at h
      simpa [List.getD] using ih i h

theorem calcStepD_extend (daily : DailyD) (r e : List (List Char)) (h : 7 ≤ r.length) :
    calcStepD daily (r ++ e) = calcStepD daily r := by
  simp only [calcStepD,
    getD_append_left r e 0 [] (by omega), getD_append_left r e 1 [] (by omega),
    getD_append_left r e 2 [] (by omega), getD_append_left r e 3 [] (by omega),
    getD_append_left r e 4 [] (by omega), getD_append_left r e 5 [] (by omega),
    getD_append_left r e 6 [] (by omega)]

theorem calcDGo_zipWith_extend :
    ∀ (rows extras : List (List (List Char))) (daily : DailyD),
      rows.length = extras.length → (∀ r ∈ rows, 7 ≤ r.length) →
      calcDGo (List.zipWith (· ++ ·) rows extras) daily = calcDGo rows daily
  | [], [], _, _, _ => rfl
  | [], _ :: _, _, hl, _ => by simp at hl
  | _ :: _, [], _, hl, _ => by simp at hl
  | r :: rows, e :: extras, daily, hl, hr => by
    simp only [List.zipWith_cons_cons, calcDGo,
      calcStepD_extend daily r e (hr r (by simp))]
    cases calcStepD daily r with
    | none => rfl
    | some daily' =>
      exact calcDGo_zipWith_extend rows extras daily'
        (by simpa using hl) (fun r' h' => hr r' (by simp [h']))

theorem rowToMeasurementE_extend (r e : List (List Char)) (h : 7 ≤ r.length) :
    rowToMeasurementE (r ++ e) = rowToMeasurementE r := by
  simp only [rowToMeasurementE,
    getD_append_left r e 0 [] (by omega), getD_append_left r e 1 [] (by omega),
    getD_append_left r e 2 [] (by omega), getD_append_left r e 3 [] (by omega),
    getD_append_left r e 4 [] (by omega), getD_append_left r e 5 [] (by omega),
    getD_append_left r e 6 [] (by omega)]

/-- C10: a line splitting into more than seven fields is accepted by the
measurement readers (only fewer-than-seven is rejected), and fields beyond
the seventh have no effect: Task D daily totals are unchanged when every
row is extended with arbitrary extra fields, and a Task E measurement is
built from the first seven fields only. -/
theorem c10_extra_fields_ignored :
    (∀ (hd s : List Char) (l₁ l₂ : List (List Char)),
      7 ≤ (pySplit ';' (pyStrip s)).length →
      read_data_rows (hd :: (l₁ ++ s :: l₂)) =
        read_data_rows (hd :: l₁) ++ pySplit ';' (pyStrip s) :: read_data_rows (hd :: l₂)) ∧
    (∀ rows extras : List (List (List Char)), rows.length = extras.length →
      (∀ r ∈ rows, 7 ≤ r.length) →
      calculate_daily_totals (List.zipWith (· ++ ·) rows extras) =
        calculate_daily_totals rows) ∧
    (∀ r e : List (List Char), 7 ≤ r.length →
      rowToMeasurementE (r ++ e) = rowToMeasurementE r) := by
  refine ⟨?_, ?_, rowToMeasurementE_extend⟩
  · intro hd s l₁ l₂ hs
    simp only [read_data_rows, List.map_cons, List.drop_succ_cons, List.drop_zero,
      List.map_append, dataRowsD_append]
    rw [dataRowsD_accept (pyStrip s) (l₂.map pyStrip) hs]
  · intro rows extras hl hr
    exact calcDGo_zipWith_extend rows extras [] hl hr

/-- Witness for C10 at concrete inputs: an eight-field line is accepted by
the Task D reader, extending rows with extra fields leaves the daily totals
unchanged, and extending one row leaves the Task E measurement unchanged. -/
theorem c10_extra_fields_ignored_witness :
    read_data_rows [chars "h", chars "2025-10-13T00:00:00;1;2;3;4;5;6;99"] =
      read_data_rows [chars "h"] ++
        pySplit ';' (pyStrip (chars "2025-10-13T00:00:00;1;2;3;4;5;6;99")) ::
        read_data_rows [chars "h"] ∧
    calculate_daily_totals (List.zipWith (· ++ ·)
      [[chars "2025-10-13T00:00:00", chars "1", chars "2", chars "3",
        chars "4", chars "5", chars "6"]] [[chars "99"]]) =
      calculate_daily_totals
        [[chars "2025-10-13T00:00:00", chars "1", chars "2", chars "3",
          chars "4", chars "5", chars "6"]] ∧
    rowToMeasurementE ([chars "2025-10-13T00:00:00", chars "1", chars "2", chars "3",
        chars "4", chars "5", chars "6"] ++ [chars "99"]) =
      rowToMeasurementE [chars "2025-10-13T00:00:00", chars "1", chars "2", chars "3",
        chars "4", chars "5", chars "6"] := by
  refine ⟨?_, ?_, ?_⟩
  · exact c10_extra_fields_ignored.1 (chars "h")
      (chars "2025-10-13T00:00:00;1;2;3;4;5;6;99") [] [] (by decide)
  · exact c10_extra_fields_ignored.2.1 _ _ (by decide) (by decide)
  · exact c10_extra_fields_ignored.2.2 _ _ (by decide)

/- Weekly rollup lemmas. -/

theorem addKeysFrom_spec (ds : SummaryE) :
    ∀ (ks : List (List Char)) (t : SummaryE), ks.Nodup →
      (∀ k ∈ ks, (alGet ds k).isSome) → (∀ k ∈ ks, (alGet t k).isSome) →
      ∃ t', addKeysFrom ds ks t = some t' ∧ alKeys t' = alKeys t ∧
        (∀ k ∈ ks, alGet t' k = some ((alGet t k).getD 0 + (alGet ds k).getD 0)) ∧
        (∀ k, k ∉ ks → alGet t' k = alGet t k) := by
  intro ks
  induction ks with
  | nil => exact fun t _ _ _ => ⟨t, rfl, rfl, by simp, fun k _ => rfl⟩
  | cons k ks ih =>
    intro t hnd hds ht
    obtain ⟨x, hx⟩ := Option.isSome_iff_exists.mp (hds k (by simp))
    obtain ⟨v, hv⟩ := Option.isSome_iff_exists.mp (ht k (by simp))
    have hknotin : k ∉ ks := (List.nodup_cons.mp hnd).1
    have ht1 : ∀ k' ∈ ks, (alGet (alModify t k (· + x)) k').isSome := by
      intro k' hk'
      have hne : k' ≠ k := fun h => hknotin (h ▸ hk')
      rw [alGet_alModify_other _ _ _ _ hne]
      exact ht k' (by simp [hk'])
    obtain ⟨t', h1, hkeys, h2, h3⟩ := ih (alModify t k (· + x)) (List.nodup_cons.mp hnd).2
      (fun k' hk' => hds k' (by simp [hk'])) ht1
    refine ⟨t', ?_, ?_, ?_, ?_⟩
    · simp [addKeysFrom, hx, h1]
    · rw [hkeys, alKeys_alModify]
    · intro k' hk'
      rcases List.mem_cons.mp hk' with rfl | hk'
      · rw [h3 k' hknotin, alGet_alModify_same, hv, hx]
        simp
      · rw [h2 k' hk']
        have hne : k' ≠ k := fun h => hknotin (h ▸ hk')
        rw [alGet_alModify_other _ _ _ _ hne]
    · intro k' hk'
      have hne1 : k' ≠ k := fun h => hk' (by simp [h])
      have hne2 : k' ∉ ks := fun h => hk' (by simp [h])
      rw [h3 k' hne2, alGet_alModify_other _ _ _ _ hne1]

theorem sumWeekGo_spec :
    ∀ (vs : List SummaryE) (t : SummaryE), alKeys t = summaryKeys →
      (∀ k ∈ summaryKeys, (alGet t k).isSome) →
      (∀ ds ∈ vs, ∀ k ∈ summaryKeys, (alGet ds k).isSome) →
      ∃ t', sumWeekGo vs t = some t' ∧ alKeys t' = summaryKeys ∧
        ∀ k ∈ summaryKeys, alGet t' k =
          some ((alGet t k).getD 0 + (vs.map fun s => (alGet s k).getD 0).sum) := by
  intro vs
  induction vs with
  | nil =>
    intro t hk ht _
    refine ⟨t, rfl, hk, fun k hks => ?_⟩
    obtain ⟨v, hv⟩ := Option.isSome_iff_exists.mp (ht k hks)
    simp [hv]
  | cons ds vs ih =>
    intro t hk ht hvs
    have hndk : summaryKeys.Nodup := by decide
    obtain ⟨t1, h1, hkeys1, h2, _⟩ := addKeysFrom_spec ds summaryKeys t hndk
      (hvs ds (by simp)) ht
    have hkt1 : alKeys t1 = summaryKeys := by rw [hkeys1, hk]
    have ht1 : ∀ k ∈ summaryKeys, (alGet t1 k).isSome := by
      intro k hks
      rw [h2 k hks]
      rfl
    obtain ⟨t', h4, hkeys', h5⟩ := ih t1 hkt1 ht1 (fun s hs => hvs s (by simp [hs]))
    refine ⟨t', ?_, hkeys', fun k hks => ?_⟩
    · rw [sumWeekGo, hk, h1]
      exact h4
    · rw [h5 k hks, h2 k hks]
      simp [add_assoc]

theorem alGet_map_key {K V : Type} [DecidableEq K] (f : K → V) :
    ∀ (ks : List K) (k : K), k ∈ ks →
      alGet (ks.map fun k => (k, f k)) k = some (f k) := by
  intro ks
  induction ks with
  | nil => simp
  | cons a t ih =>
    intro k hk
    by_cases h : k = a
    · subst h
      simp [alGet]
    · rcases List.mem_cons.mp hk with h' | h'
      · exact absurd h' h
      · simp only [List.map_cons, alGet, if_neg h]
        exact ih k h'

/-- C2: for every date-keyed mapping whose day summaries carry the six field
keys, the weekly rollup succeeds and records, for each of the six keys,
exactly the sum of that key over all day summaries in mapping order. -/
theorem c2_week_rollup_sums (daily : DailyE)
    (h : ∀ p ∈ daily, ∀ k ∈ summaryKeys, (alGet p.2 k).isSome) :
    sum_week_totals daily = some (weeklyFromDaily daily) := by
  have hinit_keys : alKeys initSummaryE = summaryKeys := by decide
  have hinit_some : ∀ k ∈ summaryKeys, (alGet initSummaryE k).isSome := by decide
  have hvs : ∀ ds ∈ alValues daily, ∀ k ∈ summaryKeys, (alGet ds k).isSome := by
    intro ds hds k hks
    obtain ⟨p, hp, rfl⟩ := List.mem_map.mp hds
    exact h p hp k hks
  obtain ⟨t', h1, hkeys, h2⟩ := sumWeekGo_spec (alValues daily) initSummaryE
    hinit_keys hinit_some hvs
  rw [sum_week_totals, h1]
  congr 1
  have hwk : alKeys (weeklyFromDaily daily) = summaryKeys := by
    simp [weeklyFromDaily, alKeys, List.map_map]
    rfl
  refine al_eq_of_keys_get t' (weeklyFromDaily daily) (by rw [hkeys, hwk]) ?_ ?_
  · rw [hkeys]
    decide
  · intro k hk
    rw [hkeys] at hk
    rw [h2 k hk, weeklyFromDaily,
      alGet_map_key (fun k => ((alValues daily).map fun s => (alGet s k).getD 0).sum)
        summaryKeys k hk]
    have h0 : alGet initSummaryE k = some 0 := by
      clear h2
      fin_cases hk <;> rfl
    rw [h0]
    simp

/-- Witness for C2 at a concrete two-day mapping. -/
theorem c2_week_rollup_sums_witness :
    sum_week_totals
      [(⟨2025, 10, 13⟩, [(chars "cons_v1", 1), (chars "cons_v2", 2), (chars "cons_v3", 3),
        (chars "prod_v1", 4), (chars "prod_v2", 5), (chars "prod_v3", 6)]),
       (⟨2025, 10, 14⟩, [(chars "cons_v1", 10), (chars "cons_v2", 20), (chars "cons_v3", 30),
        (chars "prod_v1", 40), (chars "prod_v2", 50), (chars "prod_v3", 60)])] =
      some (weeklyFromDaily
        [(⟨2025, 10, 13⟩, [(chars "cons_v1", 1), (chars "cons_v2", 2), (chars "cons_v3", 3),
          (chars "prod_v1", 4), (chars "prod_v2", 5), (chars "prod_v3", 6)]),
         (⟨2025, 10, 14⟩, [(chars "cons_v1", 10), (chars "cons_v2", 20), (chars "cons_v3", 30),
          (chars "prod_v1", 40), (chars "prod_v2", 50), (chars "prod_v3", 60)])]) := by
  refine c2_week_rollup_sums _ ?_
  intro p hp k hk
  rcases List.mem_cons.mp hp with rfl | hp'
  · fin_cases hk <;> decide
  · rcases List.mem_cons.mp hp' with rfl | hp''
    · fin_cases hk <;> decide
    · simp at hp''

/- Daily-summary invariant lemmas. -/

theorem alKeys_calcStepE (daily : DailyE) (m : Measurement) :
    alKeys (calcStepE daily m) =
      if (alGet daily m.timestamp.date).isSome then alKeys daily
      else alKeys daily ++ [m.timestamp.date] := by
  by_cases h : (alGet daily m.timestamp.date).isSome = true
  · simp [calcStepE, addFieldE, alKeys_alModify, alContains, h]
  · have hnone : alGet daily m.timestamp.date = none :=
      Option.not_isSome_iff_eq_none.mp (by simpa using h)
    simp [calcStepE, addFieldE, alKeys_alModify, alContains, h,
      alKeys_alSet_new _ _ _ hnone]

theorem calcStepE_keys_pred (daily : DailyE) (m : Measurement)
    (h : ∀ p ∈ daily, alKeys p.2 = summaryKeys) :
    ∀ p ∈ calcStepE daily m, alKeys p.2 = summaryKeys := by
  have hf : ∀ (kk : List Char) (x : ℚ) (v : SummaryE), alKeys v = summaryKeys →
      alKeys (alModify v kk (· + x)) = summaryKeys := fun kk x v hv => by
    rw [alKeys_alModify]; exact hv
  have hbase : ∀ p ∈ (if alContains daily m.timestamp.date then daily
      else alSet daily m.timestamp.date initSummaryE), alKeys p.2 = summaryKeys := by
    split
    · exact h
    · exact alValues_pred_alSet daily m.timestamp.date initSummaryE
        (fun v => alKeys v = summaryKeys) h (by rfl)
  have hstep : ∀ (D : DailyE), (∀ p ∈ D, alKeys p.2 = summaryKeys) →
      ∀ (kk : List Char) (x : ℚ), ∀ p ∈ alModify D m.timestamp.date
        (fun s => alModify s kk (· + x)), alKeys p.2 = summaryKeys :=
    fun D hD kk x => alValues_pred_alModify D m.timestamp.date _
      (fun v => alKeys v = summaryKeys) hD (hf kk x)
  simp only [calcStepE, addFieldE]
  exact hstep _ (hstep _ (hstep _ (hstep _ (hstep _ (hstep _ hbase _ _) _ _) _ _) _ _) _ _) _ _

theorem alGet_calcStepE_other (daily : DailyE) (m : Measurement) (d' : PyDate)
    (h : d' ≠ m.timestamp.date) :
    alGet (calcStepE daily m) d' = alGet daily d' := by
  simp only [calcStepE, addFieldE]
  rw [alGet_alModify_other _ _ _ _ h, alGet_alModify_other _ _ _ _ h,
    alGet_alModify_other _ _ _ _ h, alGet_alModify_other _ _ _ _ h,
    alGet_alModify_other _ _ _ _ h, alGet_alModify_other _ _ _ _ h]
  split
  · rfl
  · exact alGet_alSet_other _ _ _ _ h

theorem alGet_calcStepE_new (daily : DailyE) (m : Measurement)
    (h : alGet daily m.timestamp.date = none) :
    alGet (calcStepE daily m) m.timestamp.date = some (firstDaySummary m) := by
  have hc : alContains daily m.timestamp.date = false := by
    simp [alContains, h]
  simp only [calcStepE, addFieldE, hc, Bool.false_eq_true, if_false]
  rw [alGet_alModify_same, alGet_alModify_same, alGet_alModify_same,
    alGet_alModify_same, alGet_alModify_same, alGet_alModify_same,
    alGet_alSet_same]
  simp only [Option.map_some']
  simp +decide [alModify, initSummaryE, firstDaySummary, chars]

theorem initSummaryE_getD_zero (k : List Char) :
    (alGet initSummaryE k).getD 0 = 0 := by
  simp only [initSummaryE, alGet]
  split_ifs <;> simp

theorem sVal_addFieldE_le (D : DailyE) (d₀ : PyDate) (k₀ : List Char) (x : ℚ)
    (hx : 0 ≤ x) (d : PyDate) (k : List Char) :
    sVal D d k ≤ sVal (addFieldE D d₀ k₀ x) d k := by
  unfold sVal addFieldE
  by_cases hd : d = d₀
  · subst hd
    rw [alGet_alModify_same]
    cases h : alGet D d with
    | none => simp
    | some s =>
      simp only [Option.map_some', Option.some_bind]
      by_cases hk : k = k₀
      · subst hk
        rw [alGet_alModify_same]
        cases hs : alGet s k with
        | none => simp
        | some v => simp [hx]
      · rw [alGet_alModify_other _ _ _ _ hk]
  · rw [alGet_alModify_other _ _ _ _ hd]

theorem sVal_calcStepE_le (daily : DailyE) (m : Measurement)
    (hm : 0 ≤ m.cons_v1 ∧ 0 ≤ m.cons_v2 ∧ 0 ≤ m.cons_v3 ∧
      0 ≤ m.prod_v1 ∧ 0 ≤ m.prod_v2 ∧ 0 ≤ m.prod_v3)
    (d : PyDate) (k : List Char) :
    sVal daily d k ≤ sVal (calcStepE daily m) d k := by
  obtain ⟨h1, h2, h3, h4, h5, h6⟩ := hm
  have hbase : sVal daily d k ≤ sVal (if alContains daily m.timestamp.date then daily
      else alSet daily m.timestamp.date initSummaryE) d k := by
    split
    · exact le_refl _
    · rename_i hc
      have hnone : alGet daily m.timestamp.date = none := by
        simpa [alContains, Option.not_isSome_iff_eq_none] using hc
      by_cases hd : d = m.timestamp.date
      · subst hd
        rw [sVal, hnone, sVal, alGet_alSet_same]
        simp [initSummaryE_getD_zero]
      · rw [sVal, sVal, alGet_alSet_other _ _ _ _ hd]
  simp only [calcStepE]
  refine le_trans ?_ (sVal_addFieldE_le _ _ _ _ h6 d k)
  refine le_trans ?_ (sVal_addFieldE_le _ _ _ _ h5 d k)
  refine le_trans ?_ (sVal_addFieldE_le _ _ _ _ h4 d k)
  refine le_trans ?_ (sVal_addFieldE_le _ _ _ _ h3 d k)
  refine le_trans ?_ (sVal_addFieldE_le _ _ _ _ h2 d k)
  refine le_trans ?_ (sVal_addFieldE_le _ _ _ _ h1 d k)
  exact hbase

theorem calc_foldl_keys_pred :
    ∀ (ms : List Measurement) (daily : DailyE),
      (∀ p ∈ daily, alKeys p.2 = summaryKeys) →
      ∀ p ∈ ms.foldl calcStepE daily, alKeys p.2 = summaryKeys
  | [], _, h => h
  | m :: ms, daily, h =>
    calc_foldl_keys_pred ms (calcStepE daily m) (calcStepE_keys_pred daily m h)

theorem calc_foldl_absent :
    ∀ (ms : List Measurement) (daily : DailyE) (d : PyDate),
      alGet daily d = none → (∀ m ∈ ms, m.timestamp.date ≠ d) →
      alGet (ms.foldl calcStepE daily) d = none
  | [], _, _, h, _ => h
  | m :: ms, daily, d, h, hms => by
    have hne : d ≠ m.timestamp.date := fun he => hms m (by simp) he.symm
    exact calc_foldl_absent ms (calcStepE daily m) d
      ((alGet_calcStepE_other daily m d hne).trans h)
      (fun m' hm' => hms m' (by simp [hm']))

theorem calc_foldl_le :
    ∀ (tail : List Measurement) (daily : DailyE),
      (∀ m ∈ tail, 0 ≤ m.cons_v1 ∧ 0 ≤ m.cons_v2 ∧ 0 ≤ m.cons_v3 ∧
        0 ≤ m.prod_v1 ∧ 0 ≤ m.prod_v2 ∧ 0 ≤ m.prod_v3) →
      ∀ (d : PyDate) (k : List Char),
        sVal daily d k ≤ sVal (tail.foldl calcStepE daily) d k
  | [], _, _, _, _ => le_refl _
  | m :: tail, daily, h, d, k =>
    le_trans (sVal_calcStepE_le daily m (h m (by simp)) d k)
      (calc_foldl_le tail (calcStepE daily m) (fun m' hm' => h m' (by simp [hm'])) d k)

theorem map_eq_replicate_of_forall {α β : Type} (l : List α) (f : α → β) (b : β)
    (h : ∀ x ∈ l, f x = b) : l.map f = List.replicate l.length b := by
  induction l with
  | nil => rfl
  | cons a t ih =>
    simp only [List.map_cons, List.length_cons, List.replicate_succ, h a (by simp)]
    rw [ih fun x hx => h x (by simp [hx])]

/-- C8: throughout aggregation every recorded DailySummary carries exactly
the six fixed keys in order; a date first encountered is initialized at zero
so its entry after its first record holds exactly that record's fields; and
with non-negative inputs every accumulated value is non-decreasing as
further records are processed. -/
theorem c8_summary_invariants (ms tail : List Measurement) (m : Measurement)
    (d : PyDate) (k : List Char)
    (hnn : ∀ m' ∈ ms ++ tail, 0 ≤ m'.cons_v1 ∧ 0 ≤ m'.cons_v2 ∧ 0 ≤ m'.cons_v3 ∧
      0 ≤ m'.prod_v1 ∧ 0 ≤ m'.prod_v2 ∧ 0 ≤ m'.prod_v3)
    (hfresh : ∀ m' ∈ ms, m'.timestamp.date ≠ m.timestamp.date) :
    ((calculate_daily_summaries ms).map fun p => alKeys p.2) =
      List.replicate (calculate_daily_summaries ms).length summaryKeys ∧
    alGet (calculate_daily_summaries (ms ++ [m])) m.timestamp.date =
      some (firstDaySummary m) ∧
    sVal (calculate_daily_summaries ms) d k ≤
      sVal (calculate_daily_summaries (ms ++ tail)) d k := by
  refine ⟨?_, ?_, ?_⟩
  · exact map_eq_replicate_of_forall _ _ _
      (calc_foldl_keys_pred ms [] (by simp))
  · rw [calculate_daily_summaries, List.foldl_append]
    simp only [List.foldl_cons, List.foldl_nil]
    exact alGet_calcStepE_new _ m
      (calc_foldl_absent ms [] m.timestamp.date (by simp [alGet]) hfresh)
  · rw [calculate_daily_summaries, calculate_daily_summaries, List.foldl_append]
    exact calc_foldl_le tail (ms.foldl calcStepE [])
      (fun m' hm' => hnn m' (by simp [hm'])) d k

/-- Witness for C8 at concrete measurements: one 2025-10-13 record, a second
record of the same date as the processed tail, and a fresh 2025-10-14 record
as the first encounter of its date. -/
theorem c8_summary_invariants_witness :
    ((calculate_daily_summaries [⟨⟨⟨2025, 10, 13⟩, 0, 0, 0⟩, 1, 2, 3, 4, 5, 6⟩]).map
        fun p => alKeys p.2) =
      List.replicate
        (calculate_daily_summaries [⟨⟨⟨2025, 10, 13⟩, 0, 0, 0⟩, 1, 2, 3, 4, 5, 6⟩]).length
        summaryKeys ∧
    alGet (calculate_daily_summaries ([⟨⟨⟨2025, 10, 13⟩, 0, 0, 0⟩, 1, 2, 3, 4, 5, 6⟩] ++
        [⟨⟨⟨2025, 10, 14⟩, 0, 0, 0⟩, 7, 8, 9, 10, 11, 12⟩]))
        (⟨⟨⟨2025, 10, 14⟩, 0, 0, 0⟩, 7, 8, 9, 10, 11, 12⟩ : Measurement).timestamp.date =
      some (firstDaySummary ⟨⟨⟨2025, 10, 14⟩, 0, 0, 0⟩, 7, 8, 9, 10, 11, 12⟩) ∧
    sVal (calculate_daily_summaries [⟨⟨⟨2025, 10, 13⟩, 0, 0, 0⟩, 1, 2, 3, 4, 5, 6⟩])
        ⟨2025, 10, 13⟩ (chars "cons_v1") ≤
      sVal (calculate_daily_summaries ([⟨⟨⟨2025, 10, 13⟩, 0, 0, 0⟩, 1, 2, 3, 4, 5, 6⟩] ++
        [⟨⟨⟨2025, 10, 13⟩, 1, 0, 0⟩, 1, 1, 1, 1, 1, 1⟩])) ⟨2025, 10, 13⟩ (chars "cons_v1") := by
  refine c8_summary_invariants
    [⟨⟨⟨2025, 10, 13⟩, 0, 0, 0⟩, 1, 2, 3, 4, 5, 6⟩]
    [⟨⟨⟨2025, 10, 13⟩, 1, 0, 0⟩, 1, 1, 1, 1, 1, 1⟩]
    ⟨⟨⟨2025, 10, 14⟩, 0, 0, 0⟩, 7, 8, 9, 10, 11, 12⟩
    ⟨2025, 10, 13⟩ (chars "cons_v1") ?_ ?_
  · intro m' hm'
    rcases List.mem_cons.mp hm' with rfl | hm'
    · exact ⟨by norm_num, by norm_num, by norm_num, by norm_num, by norm_num, by norm_num⟩
    · rcases List.mem_cons.mp hm' with rfl | hm'
      · exact ⟨by norm_num, by norm_num, by norm_num, by norm_num, by norm_num, by norm_num⟩
      · simp at hm'
  · intro m' hm'
    rcases List.mem_cons.mp hm' with rfl | hm'
    · simp
    · simp at hm'

/- Report row-count lemmas. -/

theorem length_insertByLe {α : Type} (le : α → α → Bool) (x : α) (l : List α) :
    (insertByLe le x l).length = l.length + 1 := by
  induction l with
  | nil => rfl
  | cons y t ih =>
    by_cases h : le x y
    · simp [insertByLe, h]
    · simp [insertByLe, h, ih]

theorem length_sortByLe {α : Type} (le : α → α → Bool) (l : List α) :
    (sortByLe le l).length = l.length := by
  induction l with
  | nil => rfl
  | cons y t ih =>
    rw [show sortByLe le (y :: t) = insertByLe le y (sortByLe le t) from rfl,
      length_insertByLe, ih, List.length_cons]

theorem calc_foldl_keys_nodup :
    ∀ (ms : List Measurement) (daily : DailyE),
      (alKeys daily).Nodup → (alKeys (ms.foldl calcStepE daily)).Nodup
  | [], _, h => h
  | m :: ms, daily, h => by
    rw [List.foldl_cons]
    refine calc_foldl_keys_nodup ms (calcStepE daily m) ?_
    rw [alKeys_calcStepE]
    by_cases hp : (alGet daily m.timestamp.date).isSome
    · rwa [if_pos hp]
    · rw [if_neg hp]
      have hmem : m.timestamp.date ∉ alKeys daily := fun hc =>
        hp ((mem_alKeys_iff _ _).mp hc)
      simp [List.nodup_append, h, hmem]

theorem calc_foldl_keys_mem :
    ∀ (ms : List Measurement) (daily : DailyE) (d' : PyDate),
      d' ∈ alKeys (ms.foldl calcStepE daily) ↔
        d' ∈ alKeys daily ∨ d' ∈ ms.map fun m => m.timestamp.date
  | [], _, d' => by simp
  | m :: ms, daily, d' => by
    rw [List.foldl_cons, calc_foldl_keys_mem ms (calcStepE daily m) d', alKeys_calcStepE]
    by_cases hp : (alGet daily m.timestamp.date).isSome
    · rw [if_pos hp]
      have hmem : m.timestamp.date ∈ alKeys daily := (mem_alKeys_iff _ _).mpr hp
      simp only [List.map_cons, List.mem_cons]
      constructor
      · rintro (h | h)
        · exact Or.inl h
        · exact Or.inr (Or.inr h)
      · rintro (h | rfl | h)
        · exact Or.inl h
        · exact Or.inl hmem
        · exact Or.inr h
    · rw [if_neg hp]
      simp only [List.mem_append, List.mem_singleton, List.map_cons, List.mem_cons]
      constructor
      · rintro ((h | rfl | h0) | h)
        · exact Or.inl h
        · exact Or.inr (Or.inl rfl)
        · simp at h0
        · exact Or.inr (Or.inr h)
      · rintro (h | rfl | h)
        · exact Or.inl (Or.inl h)
        · exact Or.inl (Or.inr (Or.inl rfl))
        · exact Or.inr h

/-- C5: the reporters print exactly one data row per key of the aggregated
mapping: the Task E week section has one row per key between its four header
lines and its trailing blank line, the keys of the aggregation are pairwise
distinct and are exactly the distinct dates of the parsed records, and the
Task D report prints one row per key after its four header lines. -/
theorem c5_report_rows_eq_distinct_dates (ms : List Measurement) (w : Nat) (dt : DailyD) :
    (((format_week_section w (calculate_daily_summaries ms)).drop 4).dropLast).length =
      (alKeys (calculate_daily_summaries ms)).length ∧
    (alKeys (calculate_daily_summaries ms)).Nodup ∧
    (∀ d, d ∈ alKeys (calculate_daily_summaries ms) ↔
      d ∈ ms.map fun m => m.timestamp.date) ∧
    ((print_report_lines dt).drop 4).length = (alKeys dt).length := by
  refine ⟨?_, ?_, ?_, ?_⟩
  · simp only [format_week_section, List.drop_succ_cons, List.drop_zero,
      List.dropLast_concat, List.length_map, length_sortByLe]
  · exact calc_foldl_keys_nodup ms [] (by simp [alKeys])
  · intro d
    rw [calculate_daily_summaries, calc_foldl_keys_mem ms [] d]
    simp [alKeys]
  · simp only [print_report_lines, List.drop_succ_cons, List.drop_zero,
      List.length_map, length_sortByLe]
